import Mathlib

/-!
Shallow embedding of `src/utils/retry.ts`: the retry-with-exponential-backoff
executor (`retry`) and the failure classifier (`isRetryableError`).

Modelling conventions:
- JavaScript thrown values are `JSVal`; an `Error` instance is `JSVal.error`
  carrying its `message`, and every other value carries its `String(...)` form.
- The asynchronous operation is modelled as a function from the 1-based attempt
  number to that attempt's outcome (success value or thrown value), which is
  exactly the information one execution of the source loop observes.
- Effects are recorded as a trace of events: each operation invocation, each
  `onRetry` callback invocation (with its arguments), and each `sleep` with its
  duration in milliseconds (`Rat`, since the claims use exact arithmetic on the
  delay formula).
- The `onRetry` callback may itself throw (its result `some e` models a throw
  of the error `e`); the source calls it unprotected inside the `catch` block,
  so such a throw propagates out of `retry`.
- The `for` loop over `attempt = 1 .. maxAttempts` is embedded with a fuel
  argument equal to `maxAttempts.toNat`, which bounds the iteration count
  exactly: the loop body runs at most `maxAttempts` times, and when
  `maxAttempts ≤ 0` the loop body never runs, which the fuel value `0` mirrors.
-/

namespace RetryTs

/-- A JavaScript value as far as the retry module inspects it. -/
inductive JSVal where
  | error (message : String)
  | null
  | undefined
  | str (s : String)
  | other (display : String)
deriving DecidableEq

/-- JavaScript `String(v)` on the values of `JSVal`; `other` carries its own
string form. -/
def jsToString : JSVal → String
  | .error m => "Error: " ++ m
  | .null => "null"
  | .undefined => "undefined"
  | .str s => s
  | .other d => d

/-- A JavaScript `Error` as the retry module uses it: only its `message` is
ever read. -/
structure JSError where
  message : String
deriving DecidableEq

/-- `error instanceof Error ? error : new Error(String(error))` (retry.ts
line 40). -/
def normalizeError : JSVal → JSError
  | .error m => ⟨m⟩
  | v => ⟨jsToString v⟩

/-- JavaScript `s.toLowerCase()` on the ASCII strings this module handles. -/
def toLowerCase (s : String) : String := ⟨s.data.map Char.toLower⟩

/-- JavaScript `Math.min(a, b)` on (non-NaN) numbers. -/
def mathMin (a b : ℚ) : ℚ := if a ≤ b then a else b

/-- JavaScript `hay.includes(needle)`: substring containment. -/
def jsIncludes (hay needle : String) : Bool :=
  (List.range (hay.toList.length + 1)).any fun i =>
    needle.toList.isPrefixOf (hay.toList.drop i)

/-- `const retryableCodes = ['ECONNRESET', 'ETIMEDOUT', 'ENOTFOUND']`. -/
def retryableCodes : List String := ["ECONNRESET", "ETIMEDOUT", "ENOTFOUND"]

/-- `isRetryableError` from retry.ts lines 70-84. -/
def isRetryableError (error : JSVal) : Bool :=
  match error with
  | .error msg =>
    let message := toLowerCase msg
    retryableCodes.any (fun code => jsIncludes message (toLowerCase code))
      || jsIncludes message "rate limit"
      || jsIncludes message "timeout"
      || jsIncludes message "network"
  | _ => false

/-- The `RetryOptions` interface. `onRetry` takes the error and the attempt
number; its result `some e` models the callback throwing `e`, `none` a normal
return. -/
structure RetryOptions where
  maxAttempts : ℤ
  delayMs : ℚ
  backoffMultiplier : ℚ
  maxDelayMs : ℚ
  onRetry : Option (JSError → ℤ → Option JSError)

/-- `DEFAULT_OPTIONS` from retry.ts lines 13-18 (no `onRetry` field). -/
def DEFAULT_OPTIONS : RetryOptions :=
  { maxAttempts := 3, delayMs := 1000, backoffMultiplier := 2,
    maxDelayMs := 30000, onRetry := none }

/-- A caller-supplied `Partial<RetryOptions>`: every field optional. -/
structure PartialRetryOptions where
  maxAttempts : Option ℤ := none
  delayMs : Option ℚ := none
  backoffMultiplier : Option ℚ := none
  maxDelayMs : Option ℚ := none
  onRetry : Option (JSError → ℤ → Option JSError) := none

/-- The spread `{ ...DEFAULT_OPTIONS, ...options }` (retry.ts line 32): each
field supplied by the caller overrides the default, field by field. -/
def mergeOptions (options : PartialRetryOptions) : RetryOptions :=
  { maxAttempts := options.maxAttempts.getD DEFAULT_OPTIONS.maxAttempts,
    delayMs := options.delayMs.getD DEFAULT_OPTIONS.delayMs,
    backoffMultiplier := options.backoffMultiplier.getD DEFAULT_OPTIONS.backoffMultiplier,
    maxDelayMs := options.maxDelayMs.getD DEFAULT_OPTIONS.maxDelayMs,
    onRetry := options.onRetry.orElse fun _ => DEFAULT_OPTIONS.onRetry }

/-- One invocation of the wrapped operation either resolves with a value or
rejects with a thrown JavaScript value. -/
inductive Outcome (T : Type) where
  | ok (value : T)
  | fail (thrown : JSVal)
deriving DecidableEq

/-- The thrown value of a failed outcome (unused default for successes). -/
def failureOf {T : Type} : Outcome T → JSVal
  | .fail e => e
  | .ok _ => .undefined

/-- Observable events of one `retry` execution, in order. -/
inductive RetryEvent where
  | invoke (attempt : ℤ)
  | onRetryCall (error : JSError) (attempt : ℤ)
  | sleep (ms : ℚ)
deriving DecidableEq

/-- The overall result of one `retry` execution: the resolved value, or the
error the returned promise rejects with. -/
inductive RetryResult (T : Type) where
  | ok (value : T)
  | thrown (error : JSError)
deriving DecidableEq

/-- The `for` loop of `retry` (retry.ts lines 36-55), one fuel unit per
iteration of the loop body. Branches, in source order: success returns at
once; on failure the thrown value is normalized; at the last attempt the
failure is rethrown; otherwise `onRetry` is invoked (a throw there escapes
the loop), the delay `min(delayMs * backoffMultiplier ^ (attempt - 1),
maxDelayMs)` is computed and slept, and the loop continues. -/
def retryAux {T : Type} (opts : RetryOptions) (fn : ℤ → Outcome T)
    (lastError : JSError) (attempt : ℤ) : ℕ → List RetryEvent × RetryResult T
  | 0 => ([], .thrown lastError)
  | fuel + 1 =>
    if attempt ≤ opts.maxAttempts then
      match fn attempt with
      | .ok v => ([.invoke attempt], .ok v)
      | .fail e =>
        let lastError := normalizeError e
        if attempt = opts.maxAttempts then
          ([.invoke attempt], .thrown lastError)
        else
          match opts.onRetry with
          | none =>
            let delay := mathMin (opts.delayMs * opts.backoffMultiplier ^ (attempt - 1).toNat)
              opts.maxDelayMs
            let rest := retryAux opts fn lastError (attempt + 1) fuel
            (.invoke attempt :: .sleep delay :: rest.1, rest.2)
          | some cb =>
            match cb lastError attempt with
            | some cbError =>
              ([.invoke attempt, .onRetryCall lastError attempt], .thrown cbError)
            | none =>
              let delay := mathMin (opts.delayMs * opts.backoffMultiplier ^ (attempt - 1).toNat)
                opts.maxDelayMs
              let rest := retryAux opts fn lastError (attempt + 1) fuel
              (.invoke attempt :: .onRetryCall lastError attempt :: .sleep delay :: rest.1,
                rest.2)
    else ([], .thrown lastError)

/-- `retry` (retry.ts lines 28-58): merge the options, start with the
sentinel `lastError`, and run the loop from attempt 1. -/
def retry {T : Type} (fn : ℤ → Outcome T) (options : PartialRetryOptions) :
    List RetryEvent × RetryResult T :=
  let opts := mergeOptions options
  retryAux opts fn ⟨"No attempts made"⟩ 1 opts.maxAttempts.toNat

/-- The attempt numbers of the operation invocations in a trace, in order. -/
def invokedAttempts (evs : List RetryEvent) : List ℤ :=
  evs.filterMap fun ev =>
    match ev with
    | .invoke i => some i
    | _ => none

/-- How many times the operation was invoked. -/
def countInvokes (evs : List RetryEvent) : ℕ :=
  (invokedAttempts evs).length

/-- The arguments of the `onRetry` invocations in a trace, in order. -/
def onRetryEvents (evs : List RetryEvent) : List (JSError × ℤ) :=
  evs.filterMap fun ev =>
    match ev with
    | .onRetryCall e i => some (e, i)
    | _ => none

/-- How many sleeps a trace performs. -/
def countSleeps (evs : List RetryEvent) : ℕ :=
  (evs.filterMap fun ev =>
    match ev with
    | .sleep d => some d
    | _ => none).length

/-- The delay the source computes after failed attempt `attempt`, hence slept
before attempt `attempt + 1`. -/
def delayFor (opts : RetryOptions) (attempt : ℤ) : ℚ :=
  mathMin (opts.delayMs * opts.backoffMultiplier ^ (attempt - 1).toNat) opts.maxDelayMs

/-- The effective `onRetry` callback, when present, returns normally on every
input (never throws). -/
def cbNeverThrows (opts : RetryOptions) : Prop :=
  ∀ cb e i, opts.onRetry = some cb → cb e i = none

/-! Concrete operations, callbacks and option records used to instantiate the
claim theorems on explicit inputs. -/

/-- Always-failing operation whose message names the attempt that threw it. -/
def errByAttempt : ℤ → JSVal :=
  fun i => .error (if i = 3 then "third failure" else
    if i = 2 then "second failure" else "first failure")

def fnW1 : ℤ → Outcome Unit := fun i => .fail (errByAttempt i)

def optW1 : PartialRetryOptions := { maxAttempts := some 3, delayMs := some 10 }

def cbX1 : JSError → ℤ → Option JSError := fun _ _ => some ⟨"cb boom"⟩

def fnX1 : ℤ → Outcome Unit := fun _ => .fail (.error "op boom")

def optX1 : PartialRetryOptions := { maxAttempts := some 2, onRetry := some cbX1 }

def fnW2 : ℤ → Outcome String := fun i => if i ≤ 1 then .fail (.error "flaky") else .ok "done"

def optW2 : PartialRetryOptions := { maxAttempts := some 3, delayMs := some 5 }

def cbX2 : JSError → ℤ → Option JSError := fun _ _ => some ⟨"cb boom 2"⟩

def fnX2 : ℤ → Outcome Unit := fun i => if i ≤ 1 then .fail (.error "flaky 2") else .ok ()

def optX2 : PartialRetryOptions := { maxAttempts := some 3, onRetry := some cbX2 }

def cbW3 : JSError → ℤ → Option JSError := fun _ _ => none

def fnW3 : ℤ → Outcome Unit := fun i => .fail (errByAttempt i)

def optW3 : PartialRetryOptions :=
  { maxAttempts := some 3, delayMs := some 10, onRetry := some cbW3 }

def cbX3 : JSError → ℤ → Option JSError := fun _ i => if i = 2 then some ⟨"late cb boom"⟩ else none

def fnX3 : ℤ → Outcome Unit := fun _ => .fail (.error "still down")

def optX3 : PartialRetryOptions := { maxAttempts := some 3, onRetry := some cbX3 }

def fnW4 : ℤ → Outcome Unit := fun _ => .fail (.error "unreachable host")

def optW4 : PartialRetryOptions :=
  { maxAttempts := some 3, delayMs := some 100, backoffMultiplier := some 2 }

def optW4b : PartialRetryOptions :=
  { maxAttempts := some 2, delayMs := some 1000, backoffMultiplier := some 10,
    maxDelayMs := some 50 }

def cbX5 : JSError → ℤ → Option JSError := fun _ _ => some ⟨"cb exploded"⟩

def fnX5 : ℤ → Outcome Unit := fun _ => .fail (.error "op exploded")

def optX5 : PartialRetryOptions := { maxAttempts := some 2, onRetry := some cbX5 }

def cbW5 : JSError → ℤ → Option JSError :=
  fun _ i => if i = 2 then some ⟨"callback down"⟩ else none

def fnW5 : ℤ → Outcome Unit := fun _ => .fail (.error "service down")

def optW5 : PartialRetryOptions := { maxAttempts := some 3, onRetry := some cbW5 }

def fnW7 : ℤ → Outcome Unit := fun _ => .fail (.error "nope")

def optW7 : PartialRetryOptions := { maxAttempts := some 1 }

def cbW8 : JSError → ℤ → Option JSError := fun _ _ => none

def fnW8 : ℤ → Outcome Unit := fun _ => .fail (.str "weird failure")

def optW8 : PartialRetryOptions :=
  { maxAttempts := some 2, delayMs := some 7, onRetry := some cbW8 }

def optW9 : PartialRetryOptions := { maxAttempts := some 5 }

def fnW10 : ℤ → Outcome Unit := fun _ => .fail (.error "down again")

def optW10a : PartialRetryOptions := { maxAttempts := some 0 }

def optW10b : PartialRetryOptions := { maxAttempts := some 2, delayMs := some 3 }

def cbX10 : JSError → ℤ → Option JSError := fun _ _ => some ⟨"from callback"⟩

def fnX10 : ℤ → Outcome Unit := fun _ => .fail (.error "op error")

def optX10 : PartialRetryOptions := { maxAttempts := some 2, onRetry := some cbX10 }

/-! Basic lemmas about the trace observers and the embedded `Math.min`. -/

/-- `Math.min` agrees with the order-theoretic minimum on `ℚ`. -/
theorem mathMin_eq_min (a b : ℚ) : mathMin a b = min a b := (min_def a b).symm

@[simp] theorem invokedAttempts_nil : invokedAttempts [] = [] := rfl

@[simp] theorem invokedAttempts_cons_invoke (i : ℤ) (l : List RetryEvent) :
    invokedAttempts (.invoke i :: l) = i :: invokedAttempts l := rfl

@[simp] theorem invokedAttempts_cons_onRetryCall (e : JSError) (i : ℤ) (l : List RetryEvent) :
    invokedAttempts (.onRetryCall e i :: l) = invokedAttempts l := rfl

@[simp] theorem invokedAttempts_cons_sleep (d : ℚ) (l : List RetryEvent) :
    invokedAttempts (.sleep d :: l) = invokedAttempts l := rfl

@[simp] theorem countInvokes_nil : countInvokes [] = 0 := rfl

@[simp] theorem countInvokes_cons_invoke (i : ℤ) (l : List RetryEvent) :
    countInvokes (.invoke i :: l) = countInvokes l + 1 := by
  simp [countInvokes, List.length_cons]

@[simp] theorem countInvokes_cons_onRetryCall (e : JSError) (i : ℤ) (l : List RetryEvent) :
    countInvokes (.onRetryCall e i :: l) = countInvokes l := rfl

@[simp] theorem countInvokes_cons_sleep (d : ℚ) (l : List RetryEvent) :
    countInvokes (.sleep d :: l) = countInvokes l := rfl

@[simp] theorem onRetryEvents_nil : onRetryEvents [] = [] := rfl

@[simp] theorem onRetryEvents_cons_invoke (i : ℤ) (l : List RetryEvent) :
    onRetryEvents (.invoke i :: l) = onRetryEvents l := rfl

@[simp] theorem onRetryEvents_cons_onRetryCall (e : JSError) (i : ℤ) (l : List RetryEvent) :
    onRetryEvents (.onRetryCall e i :: l) = (e, i) :: onRetryEvents l := rfl

@[simp] theorem onRetryEvents_cons_sleep (d : ℚ) (l : List RetryEvent) :
    onRetryEvents (.sleep d :: l) = onRetryEvents l := rfl

@[simp] theorem countSleeps_nil : countSleeps [] = 0 := rfl

@[simp] theorem countSleeps_cons_invoke (i : ℤ) (l : List RetryEvent) :
    countSleeps (.invoke i :: l) = countSleeps l := rfl

@[simp] theorem countSleeps_cons_onRetryCall (e : JSError) (i : ℤ) (l : List RetryEvent) :
    countSleeps (.onRetryCall e i :: l) = countSleeps l := rfl

@[simp] theorem countSleeps_cons_sleep (d : ℚ) (l : List RetryEvent) :
    countSleeps (.sleep d :: l) = countSleeps l + 1 := by
  simp [countSleeps, List.length_cons]

/-- When the loop still has fuel and budget, the next event is the invocation
of the current attempt. -/
theorem retryAux_head {T : Type} (opts : RetryOptions) (fn : ℤ → Outcome T)
    (le : JSError) (a : ℤ) (fuel : ℕ) (ha : a ≤ opts.maxAttempts) (hf : 1 ≤ fuel) :
    ∃ tl, (retryAux opts fn le a fuel).1 = .invoke a :: tl := by
  obtain ⟨f, rfl⟩ : ∃ f, fuel = f + 1 := ⟨fuel - 1, by omega⟩
  cases hfn : fn a with
  | ok v => simp [retryAux, if_pos ha, hfn]
  | fail e =>
    by_cases hN : a = opts.maxAttempts
    · subst hN; simp [retryAux, if_pos ha, hfn]
    · cases hcbo : opts.onRetry with
      | none => simp [retryAux, if_pos ha, hfn, hN, hcbo]
      | some cb =>
        cases hcbr : cb (normalizeError e) a with
        | none => simp [retryAux, if_pos ha, hfn, hN, hcbo, hcbr]
        | some cbe => simp [retryAux, if_pos ha, hfn, hN, hcbo, hcbr]

/-- Loop characterization when the operation fails at every remaining attempt
and the callback (if any) never throws: the final result is the normalized
failure of the last attempt, each remaining attempt is invoked once, one sleep
separates consecutive attempts, and the trace ends with the last invocation. -/
theorem retryAux_alwaysFail {T : Type} (opts : RetryOptions) (fn : ℤ → Outcome T)
    (err : ℤ → JSVal) (hcb : cbNeverThrows opts) :
    ∀ (fuel : ℕ) (a : ℤ) (le : JSError),
      a ≤ opts.maxAttempts →
      opts.maxAttempts + 1 - a ≤ (fuel : ℤ) →
      (∀ i, a ≤ i → i ≤ opts.maxAttempts → fn i = .fail (err i)) →
      (retryAux opts fn le a fuel).2 = .thrown (normalizeError (err opts.maxAttempts))
      ∧ countInvokes (retryAux opts fn le a fuel).1 = (opts.maxAttempts + 1 - a).toNat
      ∧ countSleeps (retryAux opts fn le a fuel).1 = (opts.maxAttempts - a).toNat
      ∧ ∃ pre, (retryAux opts fn le a fuel).1 = pre ++ [.invoke opts.maxAttempts] := by
  intro fuel
  induction fuel with
  | zero =>
    intro a le ha hfuel hfail
    exfalso
    push_cast at hfuel
    omega
  | succ f ih =>
    intro a le ha hfuel hfail
    have hfa : fn a = .fail (err a) := hfail a (le_refl a) ha
    by_cases hN : a = opts.maxAttempts
    · subst hN
      have hrun : retryAux opts fn le opts.maxAttempts (f + 1) =
          ([.invoke opts.maxAttempts],
            .thrown (normalizeError (err opts.maxAttempts))) := by
        simp [retryAux, hfa]
      rw [hrun]
      refine ⟨rfl, ?_, ?_, ⟨[], rfl⟩⟩
      · simp
      · simp
    · have haN : a < opts.maxAttempts := lt_of_le_of_ne ha hN
      obtain ⟨h1, h2, h3, pre, h4⟩ :=
        ih (a + 1) (normalizeError (err a)) (by omega) (by push_cast at hfuel ⊢; omega)
          (fun i hi1 hi2 => hfail i (by omega) hi2)
      cases hcbo : opts.onRetry with
      | none =>
        have hrun : retryAux opts fn le a (f + 1) =
            (.invoke a :: .sleep (delayFor opts a) ::
              (retryAux opts fn (normalizeError (err a)) (a + 1) f).1,
             (retryAux opts fn (normalizeError (err a)) (a + 1) f).2) := by
          simp [retryAux, if_pos ha, hfa, hN, hcbo, delayFor]
        rw [hrun]
        refine ⟨h1, ?_, ?_, ⟨.invoke a :: .sleep (delayFor opts a) :: pre, ?_⟩⟩
        · simp [h2]
          all_goals omega
        · simp [h3]
          all_goals omega
        · rw [h4]
          rfl
      | some cb =>
        have hcbn : cb (normalizeError (err a)) a = none := hcb cb _ a hcbo
        have hrun : retryAux opts fn le a (f + 1) =
            (.invoke a :: .onRetryCall (normalizeError (err a)) a ::
              .sleep (delayFor opts a) ::
              (retryAux opts fn (normalizeError (err a)) (a + 1) f).1,
             (retryAux opts fn (normalizeError (err a)) (a + 1) f).2) := by
          simp [retryAux, if_pos ha, hfa, hN, hcbo, hcbn, delayFor]
        rw [hrun]
        refine ⟨h1, ?_, ?_,
          ⟨.invoke a :: .onRetryCall (normalizeError (err a)) a ::
            .sleep (delayFor opts a) :: pre, ?_⟩⟩
        · simp [h2]
          all_goals omega
        · simp [h3]
          all_goals omega
        · rw [h4]
          rfl

/-- Loop characterization when the operation first succeeds at attempt `k`
within the budget and the callback (if any) never throws: the loop returns the
success value of attempt `k`, invokes each attempt up to `k` once, sleeps once
between consecutive attempts, and the trace ends with the invocation of `k`
(no sleep after the successful attempt). -/
theorem retryAux_firstSuccess {T : Type} (opts : RetryOptions) (fn : ℤ → Outcome T)
    (err : ℤ → JSVal) (v : T) (k : ℤ) (hcb : cbNeverThrows opts)
    (hkN : k ≤ opts.maxAttempts) (hk : fn k = .ok v) :
    ∀ (fuel : ℕ) (a : ℤ) (le : JSError),
      a ≤ k →
      opts.maxAttempts + 1 - a ≤ (fuel : ℤ) →
      (∀ i, a ≤ i → i < k → fn i = .fail (err i)) →
      (retryAux opts fn le a fuel).2 = .ok v
      ∧ countInvokes (retryAux opts fn le a fuel).1 = (k + 1 - a).toNat
      ∧ countSleeps (retryAux opts fn le a fuel).1 = (k - a).toNat
      ∧ ∃ pre, (retryAux opts fn le a fuel).1 = pre ++ [.invoke k] := by
  intro fuel
  induction fuel with
  | zero =>
    intro a le ha hfuel hfail
    exfalso
    push_cast at hfuel
    omega
  | succ f ih =>
    intro a le ha hfuel hfail
    by_cases hak : a = k
    · subst hak
      have hrun : retryAux opts fn le a (f + 1) = ([.invoke a], .ok v) := by
        simp [retryAux, hkN, hk]
      rw [hrun]
      refine ⟨rfl, ?_, ?_, ⟨[], rfl⟩⟩
      · simp
      · simp
    · have hakk : a < k := lt_of_le_of_ne ha hak
      have hfa : fn a = .fail (err a) := hfail a (le_refl a) hakk
      have haN : a < opts.maxAttempts := by omega
      have hNne : ¬(a = opts.maxAttempts) := by omega
      obtain ⟨h1, h2, h3, pre, h4⟩ :=
        ih (a + 1) (normalizeError (err a)) (by omega) (by push_cast at hfuel ⊢; omega)
          (fun i hi1 hi2 => hfail i (by omega) hi2)
      cases hcbo : opts.onRetry with
      | none =>
        have hrun : retryAux opts fn le a (f + 1) =
            (.invoke a :: .sleep (delayFor opts a) ::
              (retryAux opts fn (normalizeError (err a)) (a + 1) f).1,
             (retryAux opts fn (normalizeError (err a)) (a + 1) f).2) := by
          simp [retryAux, if_pos (le_of_lt haN), hfa, hNne, hcbo, delayFor]
        rw [hrun]
        refine ⟨h1, ?_, ?_, ⟨.invoke a :: .sleep (delayFor opts a) :: pre, ?_⟩⟩
        · simp [h2]
          all_goals omega
        · simp [h3]
          all_goals omega
        · rw [h4]
          rfl
      | some cb =>
        have hcbn : cb (normalizeError (err a)) a = none := hcb cb _ a hcbo
        have hrun : retryAux opts fn le a (f + 1) =
            (.invoke a :: .onRetryCall (normalizeError (err a)) a ::
              .sleep (delayFor opts a) ::
              (retryAux opts fn (normalizeError (err a)) (a + 1) f).1,
             (retryAux opts fn (normalizeError (err a)) (a + 1) f).2) := by
          simp [retryAux, if_pos (le_of_lt haN), hfa, hNne, hcbo, hcbn, delayFor]
        rw [hrun]
        refine ⟨h1, ?_, ?_,
          ⟨.invoke a :: .onRetryCall (normalizeError (err a)) a ::
            .sleep (delayFor opts a) :: pre, ?_⟩⟩
        · simp [h2]
          all_goals omega
        · simp [h3]
          all_goals omega
        · rw [h4]
          rfl

/-- Dropping the last element of an initial segment of the naturals. -/
theorem dropLast_range (m : ℕ) : (List.range m).dropLast = List.range (m - 1) := by
  cases m with
  | zero => rfl
  | succ m0 => rw [List.range_succ, List.dropLast_concat, Nat.add_sub_cancel]

/-- Mapping commutes with dropping the last element. -/
theorem dropLast_map_comm {A B : Type} (f : A → B) (l : List A) :
    (l.map f).dropLast = l.dropLast.map f := by
  induction l with
  | nil => rfl
  | cons a l2 ih =>
    cases l2 with
    | nil => rfl
    | cons b l3 =>
      simp only [List.map_cons, List.dropLast_cons₂] at ih ⊢
      rw [ih]

/-- In any run of the loop, the attempts invoked are consecutive starting at
the current attempt. -/
theorem retryAux_invoked_range {T : Type} (opts : RetryOptions) (fn : ℤ → Outcome T) :
    ∀ (fuel : ℕ) (a : ℤ) (le : JSError),
      invokedAttempts (retryAux opts fn le a fuel).1 =
        (List.range (countInvokes (retryAux opts fn le a fuel).1)).map
          (fun j : ℕ => a + (j : ℤ)) := by
  intro fuel
  induction fuel with
  | zero =>
    intro a le
    simp [retryAux]
  | succ f ih =>
    intro a le
    by_cases ha : a ≤ opts.maxAttempts
    · cases hfn : fn a with
      | ok v =>
        have hrun : retryAux opts fn le a (f + 1) = ([.invoke a], .ok v) := by
          simp [retryAux, ha, hfn]
        rw [hrun]
        simp [show List.range 1 = [0] from rfl]
      | fail e =>
        by_cases hN : a = opts.maxAttempts
        · subst hN
          have hrun : retryAux opts fn le opts.maxAttempts (f + 1) =
              ([.invoke opts.maxAttempts], .thrown (normalizeError e)) := by
            simp [retryAux, hfn]
          rw [hrun]
          simp [show List.range 1 = [0] from rfl]
        · cases hcbo : opts.onRetry with
          | none =>
            have hrun : retryAux opts fn le a (f + 1) =
                (.invoke a :: .sleep (delayFor opts a) ::
                  (retryAux opts fn (normalizeError e) (a + 1) f).1,
                 (retryAux opts fn (normalizeError e) (a + 1) f).2) := by
              simp [retryAux, ha, hfn, hN, hcbo, delayFor]
            rw [hrun]
            simp only [invokedAttempts_cons_invoke, invokedAttempts_cons_sleep,
              countInvokes_cons_invoke, countInvokes_cons_sleep]
            rw [ih (a + 1) (normalizeError e)]
            rw [List.range_succ_eq_map, List.map_cons, List.map_map]
            refine congrArg₂ List.cons (by simp) ?_
            refine (List.map_congr_left ?_).symm
            intro j hj
            simp only [Function.comp_apply]
            push_cast
            ring
          | some cb =>
            cases hcbr : cb (normalizeError e) a with
            | some cbe =>
              have hrun : retryAux opts fn le a (f + 1) =
                  ([.invoke a, .onRetryCall (normalizeError e) a], .thrown cbe) := by
                simp [retryAux, ha, hfn, hN, hcbo, hcbr]
              rw [hrun]
              simp [show List.range 1 = [0] from rfl]
            | none =>
              have hrun : retryAux opts fn le a (f + 1) =
                  (.invoke a :: .onRetryCall (normalizeError e) a ::
                    .sleep (delayFor opts a) ::
                    (retryAux opts fn (normalizeError e) (a + 1) f).1,
                   (retryAux opts fn (normalizeError e) (a + 1) f).2) := by
                simp [retryAux, ha, hfn, hN, hcbo, hcbr, delayFor]
              rw [hrun]
              simp only [invokedAttempts_cons_invoke, invokedAttempts_cons_onRetryCall,
                invokedAttempts_cons_sleep, countInvokes_cons_invoke,
                countInvokes_cons_onRetryCall, countInvokes_cons_sleep]
              rw [ih (a + 1) (normalizeError e)]
              rw [List.range_succ_eq_map, List.map_cons, List.map_map]
              refine congrArg₂ List.cons (by simp) ?_
              refine (List.map_congr_left ?_).symm
              intro j hj
              simp only [Function.comp_apply]
              push_cast
              ring
    · have hrun : retryAux opts fn le a (f + 1) = ([], .thrown le) := by
        simp [retryAux, ha]
      rw [hrun]
      simp

/-- With a callback present that never throws, the `onRetry` invocations are
exactly one per invoked attempt except the last, each receiving the normalized
failure of that attempt together with the attempt number. -/
theorem retryAux_onRetry_dropLast {T : Type} (opts : RetryOptions) (fn : ℤ → Outcome T)
    (cb : JSError → ℤ → Option JSError) (hcbo : opts.onRetry = some cb)
    (hben : ∀ e i, cb e i = none) :
    ∀ (fuel : ℕ) (a : ℤ) (le : JSError),
      opts.maxAttempts + 1 - a ≤ (fuel : ℤ) →
      onRetryEvents (retryAux opts fn le a fuel).1 =
        ((invokedAttempts (retryAux opts fn le a fuel).1).dropLast).map
          (fun i => (normalizeError (failureOf (fn i)), i)) := by
  intro fuel
  induction fuel with
  | zero =>
    intro a le hfuel
    simp [retryAux]
  | succ f ih =>
    intro a le hfuel
    by_cases ha : a ≤ opts.maxAttempts
    · cases hfn : fn a with
      | ok v =>
        have hrun : retryAux opts fn le a (f + 1) = ([.invoke a], .ok v) := by
          simp [retryAux, ha, hfn]
        rw [hrun]
        simp
      | fail e =>
        by_cases hN : a = opts.maxAttempts
        · subst hN
          have hrun : retryAux opts fn le opts.maxAttempts (f + 1) =
              ([.invoke opts.maxAttempts], .thrown (normalizeError e)) := by
            simp [retryAux, hfn]
          rw [hrun]
          simp
        · have hcbr : cb (normalizeError e) a = none := hben _ _
          have hrun : retryAux opts fn le a (f + 1) =
              (.invoke a :: .onRetryCall (normalizeError e) a ::
                .sleep (delayFor opts a) ::
                (retryAux opts fn (normalizeError e) (a + 1) f).1,
               (retryAux opts fn (normalizeError e) (a + 1) f).2) := by
            simp [retryAux, ha, hfn, hN, hcbo, hcbr, delayFor]
          obtain ⟨tl, htl⟩ := retryAux_head opts fn (normalizeError e) (a + 1) f
            (by omega) (by push_cast at hfuel; omega)
          rw [hrun]
          simp only [onRetryEvents_cons_invoke, onRetryEvents_cons_onRetryCall,
            onRetryEvents_cons_sleep, invokedAttempts_cons_invoke,
            invokedAttempts_cons_onRetryCall, invokedAttempts_cons_sleep]
          rw [ih (a + 1) (normalizeError e) (by push_cast at hfuel ⊢; omega)]
          rw [htl]
          simp [hfn, failureOf]
    · have hrun : retryAux opts fn le a (f + 1) = ([], .thrown le) := by
        simp [retryAux, ha]
      rw [hrun]
      simp

/-- Any attempt reached after the first is immediately preceded in the trace
by the sleep computed from the previous attempt. -/
theorem retryAux_sleep_before {T : Type} (opts : RetryOptions) (fn : ℤ → Outcome T) :
    ∀ (fuel : ℕ) (a : ℤ) (le : JSError) (i : ℤ),
      .invoke i ∈ (retryAux opts fn le a fuel).1 → a < i →
      ∃ pre post, (retryAux opts fn le a fuel).1 =
        pre ++ .sleep (delayFor opts (i - 1)) :: .invoke i :: post := by
  intro fuel
  induction fuel with
  | zero =>
    intro a le i hmem hai
    rw [show retryAux opts fn le a 0 = ([], .thrown le) from rfl] at hmem
    simp at hmem
  | succ f ih =>
    intro a le i hmem hai
    by_cases ha : a ≤ opts.maxAttempts
    · cases hfn : fn a with
      | ok v =>
        have hrun : retryAux opts fn le a (f + 1) = ([.invoke a], .ok v) := by
          simp [retryAux, ha, hfn]
        rw [hrun] at hmem
        simp at hmem
        omega
      | fail e =>
        by_cases hN : a = opts.maxAttempts
        · subst hN
          have hrun : retryAux opts fn le opts.maxAttempts (f + 1) =
              ([.invoke opts.maxAttempts], .thrown (normalizeError e)) := by
            simp [retryAux, hfn]
          rw [hrun] at hmem
          simp at hmem
          omega
        · cases hcbo : opts.onRetry with
          | none =>
            have hrun : retryAux opts fn le a (f + 1) =
                (.invoke a :: .sleep (delayFor opts a) ::
                  (retryAux opts fn (normalizeError e) (a + 1) f).1,
                 (retryAux opts fn (normalizeError e) (a + 1) f).2) := by
              simp [retryAux, ha, hfn, hN, hcbo, delayFor]
            rw [hrun] at hmem ⊢
            simp only [List.mem_cons] at hmem
            have hmem2 : RetryEvent.invoke i ∈ (retryAux opts fn (normalizeError e) (a + 1) f).1 := by
              rcases hmem with h | h | h
              · exact absurd (RetryEvent.invoke.inj h) (by omega)
              · exact absurd h (by simp)
              · exact h
            by_cases hi : i = a + 1
            · subst hi
              obtain ⟨f0, rfl⟩ : ∃ f0, f = f0 + 1 := by
                cases f with
                | zero =>
                  rw [show retryAux opts fn (normalizeError e) (a + 1) 0 =
                    ([], .thrown (normalizeError e)) from rfl] at hmem2
                  simp at hmem2
                | succ f0 => exact ⟨f0, rfl⟩
              obtain ⟨tl, htl⟩ := retryAux_head opts fn (normalizeError e) (a + 1) (f0 + 1)
                (by omega) (by omega)
              refine ⟨[.invoke a], tl, ?_⟩
              rw [htl]
              have hsub : a + 1 - 1 = a := by ring
              rw [hsub]
              rfl
            · obtain ⟨pre, post, hpp⟩ := ih (a + 1) (normalizeError e) i hmem2 (by omega)
              refine ⟨.invoke a :: .sleep (delayFor opts a) :: pre, post, ?_⟩
              rw [hpp]
              rfl
          | some cb =>
            cases hcbr : cb (normalizeError e) a with
            | some cbe =>
              have hrun : retryAux opts fn le a (f + 1) =
                  ([.invoke a, .onRetryCall (normalizeError e) a], .thrown cbe) := by
                simp [retryAux, ha, hfn, hN, hcbo, hcbr]
              rw [hrun] at hmem
              simp at hmem
              omega
            | none =>
              have hrun : retryAux opts fn le a (f + 1) =
                  (.invoke a :: .onRetryCall (normalizeError e) a ::
                    .sleep (delayFor opts a) ::
                    (retryAux opts fn (normalizeError e) (a + 1) f).1,
                   (retryAux opts fn (normalizeError e) (a + 1) f).2) := by
                simp [retryAux, ha, hfn, hN, hcbo, hcbr, delayFor]
              rw [hrun] at hmem ⊢
              simp only [List.mem_cons] at hmem
              have hmem2 : RetryEvent.invoke i ∈
                  (retryAux opts fn (normalizeError e) (a + 1) f).1 := by
                rcases hmem with h | h | h | h
                · exact absurd (RetryEvent.invoke.inj h) (by omega)
                · exact absurd h (by simp)
                · exact absurd h (by simp)
                · exact h
              by_cases hi : i = a + 1
              · subst hi
                obtain ⟨f0, rfl⟩ : ∃ f0, f = f0 + 1 := by
                  cases f with
                  | zero =>
                    rw [show retryAux opts fn (normalizeError e) (a + 1) 0 =
                      ([], .thrown (normalizeError e)) from rfl] at hmem2
                    simp at hmem2
                  | succ f0 => exact ⟨f0, rfl⟩
                obtain ⟨tl, htl⟩ := retryAux_head opts fn (normalizeError e) (a + 1) (f0 + 1)
                  (by omega) (by omega)
                refine ⟨[.invoke a, .onRetryCall (normalizeError e) a], tl, ?_⟩
                rw [htl]
                have hsub : a + 1 - 1 = a := by ring
                rw [hsub]
                rfl
              · obtain ⟨pre, post, hpp⟩ := ih (a + 1) (normalizeError e) i hmem2 (by omega)
                refine ⟨.invoke a :: .onRetryCall (normalizeError e) a ::
                  .sleep (delayFor opts a) :: pre, post, ?_⟩
                rw [hpp]
                rfl
    · have hrun : retryAux opts fn le a (f + 1) = ([], .thrown le) := by
        simp [retryAux, ha]
      rw [hrun] at hmem
      simp at hmem

/-- With a callback that never throws and at least the current attempt in
budget, a thrown result is the normalized failure of some invoked attempt. -/
theorem retryAux_thrown_origin {T : Type} (opts : RetryOptions) (fn : ℤ → Outcome T)
    (hcb : cbNeverThrows opts) :
    ∀ (fuel : ℕ) (a : ℤ) (le : JSError) (er : JSError),
      a ≤ opts.maxAttempts →
      opts.maxAttempts + 1 - a ≤ (fuel : ℤ) →
      (retryAux opts fn le a fuel).2 = .thrown er →
      ∃ i v, a ≤ i ∧ i ≤ opts.maxAttempts ∧
        .invoke i ∈ (retryAux opts fn le a fuel).1 ∧ fn i = .fail v ∧
        er = normalizeError v := by
  intro fuel
  induction fuel with
  | zero =>
    intro a le er ha hfuel hres
    exfalso
    push_cast at hfuel
    omega
  | succ f ih =>
    intro a le er ha hfuel hres
    cases hfn : fn a with
    | ok v =>
      have hrun : retryAux opts fn le a (f + 1) = ([.invoke a], .ok v) := by
        simp [retryAux, ha, hfn]
      rw [hrun] at hres
      simp at hres
    | fail e =>
      by_cases hN : a = opts.maxAttempts
      · subst hN
        have hrun : retryAux opts fn le opts.maxAttempts (f + 1) =
            ([.invoke opts.maxAttempts], .thrown (normalizeError e)) := by
          simp [retryAux, hfn]
        rw [hrun] at hres ⊢
        simp at hres
        exact ⟨opts.maxAttempts, e, le_refl _, le_refl _, by simp, hfn, hres.symm⟩
      · cases hcbo : opts.onRetry with
        | none =>
          have hrun : retryAux opts fn le a (f + 1) =
              (.invoke a :: .sleep (delayFor opts a) ::
                (retryAux opts fn (normalizeError e) (a + 1) f).1,
               (retryAux opts fn (normalizeError e) (a + 1) f).2) := by
            simp [retryAux, ha, hfn, hN, hcbo, delayFor]
          rw [hrun] at hres ⊢
          obtain ⟨i, v, hi1, hi2, hmem, hfv, her⟩ :=
            ih (a + 1) (normalizeError e) er (by omega) (by push_cast at hfuel ⊢; omega) hres
          exact ⟨i, v, by omega, hi2,
            List.mem_cons_of_mem _ (List.mem_cons_of_mem _ hmem), hfv, her⟩
        | some cb =>
          have hcbr : cb (normalizeError e) a = none := hcb cb _ a hcbo
          have hrun : retryAux opts fn le a (f + 1) =
              (.invoke a :: .onRetryCall (normalizeError e) a ::
                .sleep (delayFor opts a) ::
                (retryAux opts fn (normalizeError e) (a + 1) f).1,
               (retryAux opts fn (normalizeError e) (a + 1) f).2) := by
            simp [retryAux, ha, hfn, hN, hcbo, hcbr, delayFor]
          rw [hrun] at hres ⊢
          obtain ⟨i, v, hi1, hi2, hmem, hfv, her⟩ :=
            ih (a + 1) (normalizeError e) er (by omega) (by push_cast at hfuel ⊢; omega) hres
          exact ⟨i, v, by omega, hi2,
            List.mem_cons_of_mem _ (List.mem_cons_of_mem _ (List.mem_cons_of_mem _ hmem)),
            hfv, her⟩

/-- Every `onRetry` invocation in any run receives the normalized failure of
the attempt it follows, together with that attempt number. -/
theorem retryAux_onRetryCall_args {T : Type} (opts : RetryOptions) (fn : ℤ → Outcome T) :
    ∀ (fuel : ℕ) (a : ℤ) (le er : JSError) (i : ℤ),
      .onRetryCall er i ∈ (retryAux opts fn le a fuel).1 →
      ∃ v, fn i = .fail v ∧ er = normalizeError v := by
  intro fuel
  induction fuel with
  | zero =>
    intro a le er i hmem
    rw [show retryAux opts fn le a 0 = ([], .thrown le) from rfl] at hmem
    simp at hmem
  | succ f ih =>
    intro a le er i hmem
    by_cases ha : a ≤ opts.maxAttempts
    · cases hfn : fn a with
      | ok v =>
        have hrun : retryAux opts fn le a (f + 1) = ([.invoke a], .ok v) := by
          simp [retryAux, ha, hfn]
        rw [hrun] at hmem
        simp at hmem
      | fail e =>
        by_cases hN : a = opts.maxAttempts
        · subst hN
          have hrun : retryAux opts fn le opts.maxAttempts (f + 1) =
              ([.invoke opts.maxAttempts], .thrown (normalizeError e)) := by
            simp [retryAux, hfn]
          rw [hrun] at hmem
          simp at hmem
        · cases hcbo : opts.onRetry with
          | none =>
            have hrun : retryAux opts fn le a (f + 1) =
                (.invoke a :: .sleep (delayFor opts a) ::
                  (retryAux opts fn (normalizeError e) (a + 1) f).1,
                 (retryAux opts fn (normalizeError e) (a + 1) f).2) := by
              simp [retryAux, ha, hfn, hN, hcbo, delayFor]
            rw [hrun] at hmem
            simp only [List.mem_cons] at hmem
            rcases hmem with h | h | h
            · exact absurd h (by simp)
            · exact absurd h (by simp)
            · exact ih (a + 1) (normalizeError e) er i h
          | some cb =>
            cases hcbr : cb (normalizeError e) a with
            | some cbe =>
              have hrun : retryAux opts fn le a (f + 1) =
                  ([.invoke a, .onRetryCall (normalizeError e) a], .thrown cbe) := by
                simp [retryAux, ha, hfn, hN, hcbo, hcbr]
              rw [hrun] at hmem
              simp only [List.mem_cons] at hmem
              rcases hmem with h | h | h
              · exact absurd h (by simp)
              · obtain ⟨her, hia⟩ := RetryEvent.onRetryCall.inj h
                subst hia
                exact ⟨e, hfn, her⟩
              · exact absurd h (by simp)
            | none =>
              have hrun : retryAux opts fn le a (f + 1) =
                  (.invoke a :: .onRetryCall (normalizeError e) a ::
                    .sleep (delayFor opts a) ::
                    (retryAux opts fn (normalizeError e) (a + 1) f).1,
                   (retryAux opts fn (normalizeError e) (a + 1) f).2) := by
                simp [retryAux, ha, hfn, hN, hcbo, hcbr, delayFor]
              rw [hrun] at hmem
              simp only [List.mem_cons] at hmem
              rcases hmem with h | h | h | h
              · exact absurd h (by simp)
              · obtain ⟨her, hia⟩ := RetryEvent.onRetryCall.inj h
                subst hia
                exact ⟨e, hfn, her⟩
              · exact absurd h (by simp)
              · exact ih (a + 1) (normalizeError e) er i h
    · have hrun : retryAux opts fn le a (f + 1) = ([], .thrown le) := by
        simp [retryAux, ha]
      rw [hrun] at hmem
      simp at hmem

/-- Loop characterization of an aborting run: if every attempt before `j`
fails with the callback returning normally, attempt `j` fails before the
budget is exhausted, and the callback throws there, then the loop stops at
once: the callback's failure is the result, each attempt up to `j` is invoked
once, and the trace ends with the `j`th invocation and callback call (no
sleep after it). -/
theorem retryAux_throw_at {T : Type} (opts : RetryOptions) (fn : ℤ → Outcome T)
    (cb : JSError → ℤ → Option JSError) (err : ℤ → JSVal) (j : ℤ) (cbe : JSError)
    (hcbo : opts.onRetry = some cb)
    (hjN : j < opts.maxAttempts)
    (hfj : fn j = .fail (err j))
    (hthrow : cb (normalizeError (err j)) j = some cbe) :
    ∀ (fuel : ℕ) (a : ℤ) (le : JSError),
      a ≤ j →
      opts.maxAttempts + 1 - a ≤ (fuel : ℤ) →
      (∀ i, a ≤ i → i < j → fn i = .fail (err i)) →
      (∀ i, a ≤ i → i < j → cb (normalizeError (err i)) i = none) →
      (retryAux opts fn le a fuel).2 = .thrown cbe
      ∧ countInvokes (retryAux opts fn le a fuel).1 = (j + 1 - a).toNat
      ∧ ∃ pre, (retryAux opts fn le a fuel).1 =
          pre ++ [.invoke j, .onRetryCall (normalizeError (err j)) j] := by
  intro fuel
  induction fuel with
  | zero =>
    intro a le ha hfuel hfail hben
    exfalso
    push_cast at hfuel
    omega
  | succ f ih =>
    intro a le ha hfuel hfail hben
    by_cases haj : a = j
    · subst haj
      have hrun : retryAux opts fn le a (f + 1) =
          ([.invoke a, .onRetryCall (normalizeError (err a)) a], .thrown cbe) := by
        simp [retryAux, hfj, hcbo, hthrow, le_of_lt hjN, ne_of_lt hjN]
      rw [hrun]
      refine ⟨rfl, ?_, ⟨[], rfl⟩⟩
      · simp
    · have haj2 : a < j := lt_of_le_of_ne ha haj
      have hfa : fn a = .fail (err a) := hfail a (le_refl a) haj2
      have hcba : cb (normalizeError (err a)) a = none := hben a (le_refl a) haj2
      have haN : a < opts.maxAttempts := by omega
      have hNne : ¬(a = opts.maxAttempts) := by omega
      obtain ⟨h1, h2, pre, h4⟩ :=
        ih (a + 1) (normalizeError (err a)) (by omega) (by push_cast at hfuel ⊢; omega)
          (fun i hi1 hi2 => hfail i (by omega) hi2)
          (fun i hi1 hi2 => hben i (by omega) hi2)
      have hrun : retryAux opts fn le a (f + 1) =
          (.invoke a :: .onRetryCall (normalizeError (err a)) a ::
            .sleep (delayFor opts a) ::
            (retryAux opts fn (normalizeError (err a)) (a + 1) f).1,
           (retryAux opts fn (normalizeError (err a)) (a + 1) f).2) := by
        simp [retryAux, if_pos (le_of_lt haN), hfa, hNne, hcbo, hcba, delayFor]
      rw [hrun]
      refine ⟨h1, ?_, ⟨.invoke a :: .onRetryCall (normalizeError (err a)) a ::
        .sleep (delayFor opts a) :: pre, ?_⟩⟩
      · simp [h2]
        all_goals omega
      · rw [h4]
        rfl

/-! Claim theorems. -/

/-- C1 (amended): for every policy whose effective `maxAttempts` is `N ≥ 1`
and whose `onRetry` callback (when present) never throws, an operation that
fails on every invocation is invoked exactly `N` times and the propagated
failure is exactly the normalized failure captured on the `N`th attempt. -/
theorem C1_alwaysFail_invokes_maxAttempts {T : Type} (options : PartialRetryOptions)
    (fn : ℤ → Outcome T) (err : ℤ → JSVal) (N : ℤ)
    (hN : (mergeOptions options).maxAttempts = N) (hN1 : 1 ≤ N)
    (hcb : cbNeverThrows (mergeOptions options))
    (hfail : ∀ i, 1 ≤ i → i ≤ N → fn i = .fail (err i)) :
    countInvokes (retry fn options).1 = N.toNat ∧
    (retry fn options).2 = .thrown (normalizeError (err N)) := by
  have h := retryAux_alwaysFail (mergeOptions options) fn err hcb
    ((mergeOptions options).maxAttempts.toNat) 1 ⟨"No attempts made"⟩
    (by omega) (by omega)
    (fun i h1 h2 => hfail i h1 (by omega))
  constructor
  · show countInvokes (retryAux (mergeOptions options) fn ⟨"No attempts made"⟩ 1
      (mergeOptions options).maxAttempts.toNat).1 = N.toNat
    rw [h.2.1]
    omega
  · show (retryAux (mergeOptions options) fn ⟨"No attempts made"⟩ 1
      (mergeOptions options).maxAttempts.toNat).2 = .thrown (normalizeError (err N))
    rw [h.1, hN]

/-- C1 witness: maxAttempts 3, operation failing on every attempt with
per-attempt messages — three invocations and the third failure propagate. -/
theorem C1_alwaysFail_witness :
    countInvokes (retry fnW1 optW1).1 = 3 ∧
    (retry fnW1 optW1).2 = .thrown ⟨"third failure"⟩ := by
  have h := C1_alwaysFail_invokes_maxAttempts optW1 fnW1 errByAttempt 3 rfl (by decide)
    (fun cb e i hsome => Option.noConfusion hsome) (fun i h1 h2 => rfl)
  exact ⟨h.1, h.2⟩

/-- C1 counterexample: a policy with maxAttempts 2 whose `onRetry` throws,
with an operation failing on both attempts, invokes the operation once (not
twice) and propagates the callback failure, not the second attempt's. -/
theorem C1_counterexample :
    (mergeOptions optX1).maxAttempts = 2 ∧
    fnX1 1 = .fail (.error "op boom") ∧
    fnX1 2 = .fail (.error "op boom") ∧
    countInvokes (retry fnX1 optX1).1 = 1 ∧
    (retry fnX1 optX1).2 = .thrown ⟨"cb boom"⟩ ∧
    (⟨"cb boom"⟩ : JSError) ≠ normalizeError (.error "op boom") := by
  refine ⟨rfl, rfl, rfl, ?_, ?_, ?_⟩ <;> decide

/-- C2 (amended): for every policy whose `onRetry` callback (when present)
never throws, an operation that first succeeds on attempt `k ≤ maxAttempts`
is invoked exactly `k` times, its success value is returned, and no delay
follows the final (successful) attempt: the trace ends with that invocation. -/
theorem C2_first_success_returns {T : Type} (options : PartialRetryOptions)
    (fn : ℤ → Outcome T) (err : ℤ → JSVal) (v : T) (k : ℤ)
    (hcb : cbNeverThrows (mergeOptions options))
    (hk1 : 1 ≤ k) (hkN : k ≤ (mergeOptions options).maxAttempts)
    (hfail : ∀ i, 1 ≤ i → i < k → fn i = .fail (err i))
    (hk : fn k = .ok v) :
    (retry fn options).2 = .ok v ∧
    countInvokes (retry fn options).1 = k.toNat ∧
    ∃ pre, (retry fn options).1 = pre ++ [.invoke k] := by
  have h := retryAux_firstSuccess (mergeOptions options) fn err v k hcb hkN hk
    ((mergeOptions options).maxAttempts.toNat) 1 ⟨"No attempts made"⟩ hk1 (by omega) hfail
  refine ⟨h.1, ?_, h.2.2.2⟩
  show countInvokes (retryAux (mergeOptions options) fn ⟨"No attempts made"⟩ 1
    (mergeOptions options).maxAttempts.toNat).1 = k.toNat
  rw [h.2.1]
  omega

/-- C2 witness: maxAttempts 3, failure then success — two invocations, the
success value is returned, trace ends with the second invocation. -/
theorem C2_witness :
    (retry fnW2 optW2).2 = .ok "done" ∧
    countInvokes (retry fnW2 optW2).1 = 2 ∧
    ∃ pre, (retry fnW2 optW2).1 = pre ++ [.invoke 2] := by
  have h := C2_first_success_returns optW2 fnW2 (fun _ => .error "flaky") "done" 2
    (fun cb e i hsome => Option.noConfusion hsome) (by decide) (by decide)
    (fun i h1 h2 => by
      have hi : i = 1 := by omega
      subst hi
      rfl)
    rfl
  exact ⟨h.1, h.2.1, h.2.2⟩

/-- C2 counterexample: operation failing once then succeeding, but the
policy's `onRetry` throws — the operation is invoked once, never reaching the
success, and a failure (the callback's) is propagated instead of the value. -/
theorem C2_counterexample :
    (mergeOptions optX2).maxAttempts = 3 ∧
    fnX2 1 = .fail (.error "flaky 2") ∧
    fnX2 2 = .ok () ∧
    countInvokes (retry fnX2 optX2).1 = 1 ∧
    (retry fnX2 optX2).2 = .thrown ⟨"cb boom 2"⟩ := by
  refine ⟨rfl, rfl, rfl, ?_, ?_⟩ <;> decide

/-- C3 (amended): for every execution of `retry` whose present `onRetry`
callback never throws, making `m` attempts in total, the callback is invoked
exactly `m - 1` times, once per failed non-final attempt, receiving the
normalized failure of that attempt together with its 1-based number. -/
theorem C3_onRetry_per_failed_attempt {T : Type} (options : PartialRetryOptions)
    (fn : ℤ → Outcome T) (cb : JSError → ℤ → Option JSError)
    (hcbo : (mergeOptions options).onRetry = some cb)
    (hben : ∀ e i, cb e i = none) :
    onRetryEvents (retry fn options).1 =
      (List.range (countInvokes (retry fn options).1 - 1)).map
        (fun j : ℕ => (normalizeError (failureOf (fn (1 + (j : ℤ)))), 1 + (j : ℤ))) := by
  show onRetryEvents (retryAux (mergeOptions options) fn ⟨"No attempts made"⟩ 1
      (mergeOptions options).maxAttempts.toNat).1 =
    (List.range (countInvokes (retryAux (mergeOptions options) fn ⟨"No attempts made"⟩ 1
      (mergeOptions options).maxAttempts.toNat).1 - 1)).map
      (fun j : ℕ => (normalizeError (failureOf (fn (1 + (j : ℤ)))), 1 + (j : ℤ)))
  rw [retryAux_onRetry_dropLast (mergeOptions options) fn cb hcbo hben
    ((mergeOptions options).maxAttempts.toNat) 1 ⟨"No attempts made"⟩ (by omega)]
  rw [retryAux_invoked_range (mergeOptions options) fn
    ((mergeOptions options).maxAttempts.toNat) 1 ⟨"No attempts made"⟩]
  rw [dropLast_map_comm, dropLast_range, List.map_map]
  rfl

/-- C3 witness: maxAttempts 3, a present never-throwing callback and an
always-failing operation — the callback receives attempts 1 and 2 with their
failures. -/
theorem C3_witness :
    onRetryEvents (retry fnW3 optW3).1 =
      (List.range (countInvokes (retry fnW3 optW3).1 - 1)).map
        (fun j : ℕ => (normalizeError (failureOf (fnW3 (1 + (j : ℤ)))), 1 + (j : ℤ))) :=
  C3_onRetry_per_failed_attempt optW3 fnW3 cbW3 rfl (fun _ _ => rfl)

/-- C3 counterexample: a callback that throws on its second invocation — the
execution makes 2 attempts yet the callback is invoked 2 times, not
(2 - 1) = 1 times. -/
theorem C3_counterexample :
    countInvokes (retry fnX3 optX3).1 = 2 ∧
    (onRetryEvents (retry fnX3 optX3).1).length = 2 ∧
    (2 : ℕ) ≠ 2 - 1 := by
  refine ⟨?_, ?_, ?_⟩ <;> decide

/-- C4: for every policy and every attempt `i > 1` that `retry` reaches, the
delay slept immediately before attempt `i` equals
`min(delayMs * backoffMultiplier ^ (i - 2), maxDelayMs)`. -/
theorem C4_delay_before_attempt {T : Type} (options : PartialRetryOptions)
    (fn : ℤ → Outcome T) (i : ℤ) (h1 : 1 < i)
    (hmem : .invoke i ∈ (retry fn options).1) :
    ∃ pre post, (retry fn options).1 =
      pre ++ .sleep (min ((mergeOptions options).delayMs *
          (mergeOptions options).backoffMultiplier ^ (i - 2).toNat)
          (mergeOptions options).maxDelayMs) ::
        .invoke i :: post := by
  have hmem2 : RetryEvent.invoke i ∈ (retryAux (mergeOptions options) fn
      ⟨"No attempts made"⟩ 1 (mergeOptions options).maxAttempts.toNat).1 := hmem
  obtain ⟨pre, post, hpp⟩ := retryAux_sleep_before (mergeOptions options) fn
    ((mergeOptions options).maxAttempts.toNat) 1 ⟨"No attempts made"⟩ i hmem2 h1
  refine ⟨pre, post, ?_⟩
  show (retryAux (mergeOptions options) fn ⟨"No attempts made"⟩ 1
    (mergeOptions options).maxAttempts.toNat).1 = _
  rw [hpp]
  simp only [delayFor, mathMin_eq_min]
  have hsub : i - 1 - 1 = i - 2 := by ring
  rw [hsub]

/-- C4 witness: with delayMs 100 and multiplier 2 the sleep before attempt 3
is min(100·2, 30000) = 200; with delayMs 1000, multiplier 10 and maxDelayMs 50
the sleep before attempt 2 is capped at 50. -/
theorem C4_witness :
    (RetryEvent.invoke 3 ∈ (retry fnW4 optW4).1 ∧
      ∃ pre post, (retry fnW4 optW4).1 =
        pre ++ .sleep (min ((mergeOptions optW4).delayMs *
            (mergeOptions optW4).backoffMultiplier ^ ((3 : ℤ) - 2).toNat)
            (mergeOptions optW4).maxDelayMs) :: .invoke 3 :: post) ∧
    min ((mergeOptions optW4).delayMs *
        (mergeOptions optW4).backoffMultiplier ^ ((3 : ℤ) - 2).toNat)
      (mergeOptions optW4).maxDelayMs = 200 ∧
    (RetryEvent.invoke 2 ∈ (retry fnW4 optW4b).1 ∧
      ∃ pre post, (retry fnW4 optW4b).1 =
        pre ++ .sleep (min ((mergeOptions optW4b).delayMs *
            (mergeOptions optW4b).backoffMultiplier ^ ((2 : ℤ) - 2).toNat)
            (mergeOptions optW4b).maxDelayMs) :: .invoke 2 :: post) ∧
    min ((mergeOptions optW4b).delayMs *
        (mergeOptions optW4b).backoffMultiplier ^ ((2 : ℤ) - 2).toNat)
      (mergeOptions optW4b).maxDelayMs = 50 := by
  have hm1 : RetryEvent.invoke 3 ∈ (retry fnW4 optW4).1 := by decide
  have hm2 : RetryEvent.invoke 2 ∈ (retry fnW4 optW4b).1 := by decide
  refine ⟨⟨hm1, C4_delay_before_attempt optW4 fnW4 3 (by decide) hm1⟩, ?_,
    ⟨hm2, C4_delay_before_attempt optW4b fnW4 2 (by decide) hm2⟩, ?_⟩
  · norm_num [mergeOptions, DEFAULT_OPTIONS, optW4]
  · norm_num [mergeOptions, DEFAULT_OPTIONS, optW4b]

/-- C5 (amended): if the `onRetry` callback throws when invoked after any
reached failed non-final attempt `j` (the attempts before `j` failed with the
callback returning normally, which is how attempt `j` is reached), the retry
loop is aborted at once: exactly `j` operation invocations happen, the trace
ends with that callback call — no sleep, no further attempt — and the
callback's failure, not the wrapped operation's, propagates to the caller. -/
theorem C5_onRetry_throw_aborts {T : Type} (options : PartialRetryOptions)
    (fn : ℤ → Outcome T) (cb : JSError → ℤ → Option JSError) (err : ℤ → JSVal)
    (j : ℤ) (cbe : JSError)
    (hcbo : (mergeOptions options).onRetry = some cb)
    (hj1 : 1 ≤ j) (hjN : j < (mergeOptions options).maxAttempts)
    (hfail : ∀ i, 1 ≤ i → i ≤ j → fn i = .fail (err i))
    (hbefore : ∀ i, 1 ≤ i → i < j → cb (normalizeError (err i)) i = none)
    (hthrow : cb (normalizeError (err j)) j = some cbe) :
    (retry fn options).2 = .thrown cbe ∧
    countInvokes (retry fn options).1 = j.toNat ∧
    ∃ pre, (retry fn options).1 =
      pre ++ [.invoke j, .onRetryCall (normalizeError (err j)) j] := by
  have h := retryAux_throw_at (mergeOptions options) fn cb err j cbe hcbo hjN
    (hfail j hj1 (le_refl j)) hthrow
    ((mergeOptions options).maxAttempts.toNat) 1 ⟨"No attempts made"⟩ hj1
    (by omega) (fun i h1 h2 => hfail i h1 (by omega)) hbefore
  refine ⟨h.1, ?_, h.2.2⟩
  show countInvokes (retryAux (mergeOptions options) fn ⟨"No attempts made"⟩ 1
    (mergeOptions options).maxAttempts.toNat).1 = j.toNat
  rw [h.2.1]
  omega

/-- C5 witness: maxAttempts 3, an always-failing operation and a callback
that returns normally after attempt 1 but throws after attempt 2 — two
invocations, the loop aborts right after the second callback call and the
callback failure propagates. -/
theorem C5_witness :
    (retry fnW5 optW5).2 = .thrown ⟨"callback down"⟩ ∧
    countInvokes (retry fnW5 optW5).1 = 2 ∧
    ∃ pre, (retry fnW5 optW5).1 =
      pre ++ [.invoke 2, .onRetryCall (normalizeError (.error "service down")) 2] := by
  have h := C5_onRetry_throw_aborts optW5 fnW5 cbW5 (fun _ => .error "service down") 2
    ⟨"callback down"⟩ rfl (by decide) (by decide) (fun i h1 h2 => rfl)
    (fun i h1 h2 => by
      have hi : i = 1 := by omega
      subst hi
      rfl)
    rfl
  exact ⟨h.1, h.2.1, h.2.2⟩

/-- C5 counterexample: with a throwing callback the loop is aborted (a single
invocation instead of two) and the propagated failure is the callback's, not
the operation's. -/
theorem C5_counterexample :
    (mergeOptions optX5).maxAttempts = 2 ∧
    fnX5 1 = .fail (.error "op exploded") ∧
    fnX5 2 = .fail (.error "op exploded") ∧
    countInvokes (retry fnX5 optX5).1 = 1 ∧
    (retry fnX5 optX5).2 = .thrown ⟨"cb exploded"⟩ ∧
    (⟨"cb exploded"⟩ : JSError) ≠ normalizeError (.error "op exploded") := by
  refine ⟨rfl, rfl, rfl, ?_, ?_, ?_⟩ <;> decide

/-- C6: `isRetryableError` is false on every non-Error input, and on an Error
it is true exactly when the lowercased message contains one of the transient
codes "econnreset", "etimedout", "enotfound" or one of the substrings
"rate limit", "timeout", "network". -/
theorem C6_isRetryable_iff (v : JSVal) :
    isRetryableError v = true ↔
      ∃ m, v = .error m ∧
        (jsIncludes (toLowerCase m) "econnreset" = true ∨
         jsIncludes (toLowerCase m) "etimedout" = true ∨
         jsIncludes (toLowerCase m) "enotfound" = true ∨
         jsIncludes (toLowerCase m) "rate limit" = true ∨
         jsIncludes (toLowerCase m) "timeout" = true ∨
         jsIncludes (toLowerCase m) "network" = true) := by
  cases v with
  | error m =>
    have h1 : toLowerCase "ECONNRESET" = "econnreset" := by decide
    have h2 : toLowerCase "ETIMEDOUT" = "etimedout" := by decide
    have h3 : toLowerCase "ENOTFOUND" = "enotfound" := by decide
    simp [isRetryableError, retryableCodes, h1, h2, h3, or_assoc]
  | null => simp [isRetryableError]
  | undefined => simp [isRetryableError]
  | str s => simp [isRetryableError]
  | other d => simp [isRetryableError]

/-- C6 witness: transient messages are classified retryable; validation-style
messages, non-Error strings, null and undefined are not. -/
theorem C6_witness :
    isRetryableError (.error "Network timeout") = true ∧
    isRetryableError (.error "Rate limit exceeded") = true ∧
    isRetryableError (.error "Invalid input") = false ∧
    isRetryableError (.error "Not found") = false ∧
    isRetryableError (.str "ECONNRESET") = false ∧
    isRetryableError .null = false ∧
    isRetryableError .undefined = false := by
  refine ⟨(C6_isRetryable_iff _).mpr ⟨"Network timeout", rfl, by decide⟩,
    ?_, ?_, ?_, ?_, ?_, ?_⟩ <;> decide

/-- C7: with an effective `maxAttempts` of 1 the operation runs exactly once
with no sleep and no `onRetry` invocation; a success value is returned and a
failure is propagated normalized. -/
theorem C7_single_attempt {T : Type} (options : PartialRetryOptions)
    (fn : ℤ → Outcome T) (h1 : (mergeOptions options).maxAttempts = 1) :
    (retry fn options).1 = [.invoke 1] ∧
    (retry fn options).2 = (match fn 1 with
      | .ok v => RetryResult.ok v
      | .fail e => RetryResult.thrown (normalizeError e)) := by
  show (retryAux (mergeOptions options) fn ⟨"No attempts made"⟩ 1
      (mergeOptions options).maxAttempts.toNat).1 = _ ∧
    (retryAux (mergeOptions options) fn ⟨"No attempts made"⟩ 1
      (mergeOptions options).maxAttempts.toNat).2 = _
  rw [h1]
  rw [show ((1 : ℤ)).toNat = 1 from rfl]
  cases hfn : fn 1 with
  | ok v => constructor <;> simp [retryAux, hfn, h1]
  | fail e => constructor <;> simp [retryAux, hfn, h1]

/-- C7 witness: maxAttempts 1 and a failing operation — one invocation, no
sleep, no callback, the failure propagates. -/
theorem C7_witness :
    (retry fnW7 optW7).1 = [.invoke 1] ∧
    (retry fnW7 optW7).2 = .thrown ⟨"nope"⟩ := by
  have h := C7_single_attempt optW7 fnW7 rfl
  exact ⟨h.1, h.2⟩

/-- C8: failure normalization: each `onRetry` invocation receives the
normalized failure of its attempt; a non-Error thrown value normalizes to an
Error carrying its string form as message; and, when the callback never
throws and at least one attempt is allowed, the propagated failure is the
normalized failure of an invoked attempt. -/
theorem C8_normalization {T : Type} (options : PartialRetryOptions)
    (fn : ℤ → Outcome T)
    (hcb : cbNeverThrows (mergeOptions options))
    (hN : 1 ≤ (mergeOptions options).maxAttempts) :
    (∀ er i, .onRetryCall er i ∈ (retry fn options).1 →
      ∃ v, fn i = .fail v ∧ er = normalizeError v) ∧
    (∀ v : JSVal, (∀ m, v ≠ .error m) → normalizeError v = ⟨jsToString v⟩) ∧
    (∀ er, (retry fn options).2 = .thrown er →
      ∃ i v, .invoke i ∈ (retry fn options).1 ∧ fn i = .fail v ∧
        er = normalizeError v) := by
  refine ⟨?_, ?_, ?_⟩
  · intro er i hmem
    have hmem2 : RetryEvent.onRetryCall er i ∈ (retryAux (mergeOptions options) fn
        ⟨"No attempts made"⟩ 1 (mergeOptions options).maxAttempts.toNat).1 := hmem
    exact retryAux_onRetryCall_args (mergeOptions options) fn
      ((mergeOptions options).maxAttempts.toNat) 1 ⟨"No attempts made"⟩ er i hmem2
  · intro v hv
    cases v with
    | error m => exact absurd rfl (hv m)
    | null => rfl
    | undefined => rfl
    | str s => rfl
    | other d => rfl
  · intro er hres
    have hres2 : (retryAux (mergeOptions options) fn ⟨"No attempts made"⟩ 1
        (mergeOptions options).maxAttempts.toNat).2 = .thrown er := hres
    obtain ⟨i, v, hi1, hi2, hmem, hfv, her⟩ :=
      retryAux_thrown_origin (mergeOptions options) fn hcb
        ((mergeOptions options).maxAttempts.toNat) 1 ⟨"No attempts made"⟩ er hN
        (by omega) hres2
    exact ⟨i, v, hmem, hfv, her⟩

/-- C8 witness: an operation throwing the plain string "weird failure" under
maxAttempts 2 with a benign callback — applying the normalization theorem at
this input. -/
theorem C8_witness :
    (∀ er i, .onRetryCall er i ∈ (retry fnW8 optW8).1 →
      ∃ v, fnW8 i = .fail v ∧ er = normalizeError v) ∧
    (∀ v : JSVal, (∀ m, v ≠ .error m) → normalizeError v = ⟨jsToString v⟩) ∧
    (∀ er, (retry fnW8 optW8).2 = .thrown er →
      ∃ i v, .invoke i ∈ (retry fnW8 optW8).1 ∧ fnW8 i = .fail v ∧
        er = normalizeError v) :=
  C8_normalization optW8 fnW8
    (by
      intro cb e i hsome
      have hh := Option.some.inj hsome
      subst hh
      rfl)
    (by decide)

/-- C9: the effective configuration is the defaults overridden field by field
by the caller-supplied partial options; with no options supplied the defaults
maxAttempts 3, delayMs 1000, backoffMultiplier 2, maxDelayMs 30000 apply. -/
theorem C9_option_merging (p : PartialRetryOptions) :
    (mergeOptions p).maxAttempts = p.maxAttempts.getD 3 ∧
    (mergeOptions p).delayMs = p.delayMs.getD 1000 ∧
    (mergeOptions p).backoffMultiplier = p.backoffMultiplier.getD 2 ∧
    (mergeOptions p).maxDelayMs = p.maxDelayMs.getD 30000 ∧
    mergeOptions {} = DEFAULT_OPTIONS ∧
    DEFAULT_OPTIONS.maxAttempts = 3 ∧ DEFAULT_OPTIONS.delayMs = 1000 ∧
    DEFAULT_OPTIONS.backoffMultiplier = 2 ∧ DEFAULT_OPTIONS.maxDelayMs = 30000 :=
  ⟨rfl, rfl, rfl, rfl, rfl, rfl, rfl, rfl, rfl⟩

/-- C9 witness: supplying only maxAttempts 5 keeps the remaining fields at
their documented defaults. -/
theorem C9_witness :
    (mergeOptions optW9).maxAttempts = 5 ∧
    (mergeOptions optW9).delayMs = 1000 ∧
    (mergeOptions optW9).backoffMultiplier = 2 ∧
    (mergeOptions optW9).maxDelayMs = 30000 := by
  have h := C9_option_merging optW9
  exact ⟨h.1, h.2.1, h.2.2.1, h.2.2.2.1⟩

/-- C10 (amended): with an effective `maxAttempts ≤ 0` the loop body never
runs — the operation is never invoked and the sentinel failure with message
"No attempts made" propagates; with `maxAttempts ≥ 1`, provided the `onRetry`
callback (when present) never throws, any propagated failure is the
normalized failure of an invoked operation attempt, so the sentinel is
unreachable. -/
theorem C10_sentinel {T : Type} (options : PartialRetryOptions) (fn : ℤ → Outcome T) :
    ((mergeOptions options).maxAttempts ≤ 0 →
      (retry fn options).1 = [] ∧
      (retry fn options).2 = .thrown ⟨"No attempts made"⟩) ∧
    (1 ≤ (mergeOptions options).maxAttempts → cbNeverThrows (mergeOptions options) →
      ∀ er, (retry fn options).2 = .thrown er →
        ∃ i v, .invoke i ∈ (retry fn options).1 ∧ fn i = .fail v ∧
          er = normalizeError v) := by
  constructor
  · intro hle
    have hf : (mergeOptions options).maxAttempts.toNat = 0 := by omega
    show (retryAux (mergeOptions options) fn ⟨"No attempts made"⟩ 1
        (mergeOptions options).maxAttempts.toNat).1 = [] ∧
      (retryAux (mergeOptions options) fn ⟨"No attempts made"⟩ 1
        (mergeOptions options).maxAttempts.toNat).2 = .thrown ⟨"No attempts made"⟩
    rw [hf]
    exact ⟨rfl, rfl⟩
  · intro hN hcb er hres
    have hres2 : (retryAux (mergeOptions options) fn ⟨"No attempts made"⟩ 1
        (mergeOptions options).maxAttempts.toNat).2 = .thrown er := hres
    obtain ⟨i, v, hi1, hi2, hmem, hfv, her⟩ :=
      retryAux_thrown_origin (mergeOptions options) fn hcb
        ((mergeOptions options).maxAttempts.toNat) 1 ⟨"No attempts made"⟩ er hN
        (by omega) hres2
    exact ⟨i, v, hmem, hfv, her⟩

/-- C10 witness: maxAttempts 0 gives no invocation and the sentinel; with
maxAttempts 2 and no callback, the propagated failure comes from an invoked
attempt. -/
theorem C10_witness :
    ((retry fnW10 optW10a).1 = [] ∧
     (retry fnW10 optW10a).2 = .thrown ⟨"No attempts made"⟩) ∧
    (∃ i v, RetryEvent.invoke i ∈ (retry fnW10 optW10b).1 ∧ fnW10 i = .fail v ∧
      (⟨"down again"⟩ : JSError) = normalizeError v) := by
  constructor
  · exact (C10_sentinel optW10a fnW10).1 (by decide)
  · exact (C10_sentinel optW10b fnW10).2 (by decide)
      (fun cb e i hsome => Option.noConfusion hsome) ⟨"down again"⟩ (by decide)

/-- C10 counterexample: with maxAttempts 2 and a throwing callback, the
propagated failure originates from the callback, not from any operation
attempt (every attempt fails with "op error", whose normalization differs). -/
theorem C10_counterexample :
    1 ≤ (mergeOptions optX10).maxAttempts ∧
    fnX10 1 = .fail (.error "op error") ∧
    fnX10 2 = .fail (.error "op error") ∧
    (retry fnX10 optX10).2 = .thrown ⟨"from callback"⟩ ∧
    normalizeError (.error "op error") ≠ (⟨"from callback"⟩ : JSError) := by
  refine ⟨?_, rfl, rfl, ?_, ?_⟩ <;> decide

end RetryTs
